import Mathlib

/-!
Verification of the pack-dependency-actions repository against its
natural-language specification.

The definitions below are shallow embeddings of the JavaScript and TypeScript
sources:
  - the Reconciliation Decision Engine
    (danger/pack-version-check.ts: checkPackVersion, evaluateBlockingConditions),
  - the pin-file readers
    (danger/pack-version-check.ts: getVersions; pack-dependency/index.js: run),
  - the Build-and-Pack Pipeline (pack-dependency/index.js: run),
  - the SHA Resolution and Rollback Guard (modelled from the spec, since the
    validate-sha action implementation is not among the sources).
-/

/-! ## Reconciliation Decision Engine -/

/-- String suffix test over the character lists (the JavaScript
String.prototype.endsWith). -/
def strEndsWith (s suffix : String) : Bool :=
  suffix.toList.isSuffixOf s.toList

/-- String prefix test over the character lists (the JavaScript
String.prototype.startsWith). -/
def strStartsWith (s pre : String) : Bool :=
  pre.toList.isPrefixOf s.toList

/-- Lexicographic comparison of character lists by the character order. -/
def charListLe : List Char → List Char → Bool
  | [], _ => true
  | _ :: _, [] => false
  | a :: as, b :: bs =>
    if a < b then true else if b < a then false else charListLe as bs

/-- Lexicographic string order, as the default JavaScript string comparison
used by Array.prototype.sort. -/
def strLe (a b : String) : Bool := charListLe a.toList b.toList

/-- JavaScript truthiness for a string-or-null value: null and the empty
string are the only falsy values that occur here. -/
def falsy : Option String → Bool
  | none => true
  | some s => s == ("")

/-- The three observed values of the tracked pin file: trunk (origin/main),
proposed (the PR working tree) and merge-base.  In the source this is the
Versions record of getVersions; null models an absent value. -/
structure Versions where
  main : Option String
  pr : Option String
  base : Option String
  deriving DecidableEq

/-- The verdict returned by the Engine: shouldBlock plus a reason string. -/
structure Evaluation where
  shouldBlock : Bool
  reason : String
  deriving DecidableEq

/-- Embedding of evaluateBlockingConditions from danger/pack-version-check.ts.
The order of the checks is exactly the order of the source: versions match,
both falsy, new file, deleted, falsy base, base equals main, divergent. -/
def evaluateBlockingConditions (versions : Versions)
    (isCreated isDeleted : Bool) : Evaluation :=
  if versions.main == versions.pr then
    ⟨false, "Versions match"⟩
  else if falsy versions.main && falsy versions.pr then
    ⟨false, "Version file doesn\x27t exist in either branch"⟩
  else if falsy versions.main && !falsy versions.pr && isCreated then
    ⟨false, "New version file added (doesn\x27t exist on main)"⟩
  else if isDeleted then
    ⟨true, "Version file was deleted"⟩
  else if falsy versions.base then
    ⟨true, "PR introduced version file that doesn\x27t exist at merge base"⟩
  else if versions.base == versions.main then
    ⟨true, "PR modified version while main hasn\x27t changed (invalid version or test)"⟩
  else
    ⟨true, "Both PR and main have modified the version file differently (divergent versions)"⟩

/-- The added/modified/deleted file lists of the change request, as exposed by
the danger DSL (danger.git.modified_files and friends). -/
structure GitFiles where
  modified_files : List String
  created_files : List String
  deleted_files : List String
  deriving DecidableEq

/-- The configuration options of checkPackVersion, with the defaults of the
source.  An empty allowPattern models a falsy (unset) pattern. -/
structure CheckOptions where
  filePath : String := ".ui-sha"
  allowPattern : String := "^(update|generate|auto)-.*"
  deriving DecidableEq

/-- Embedding of checkPackVersion from danger/pack-version-check.ts.  The
regex engine is external to the source, so the test
new RegExp(allowPattern).test(branchName) is passed in as the function
regexTest; the Versions record stands for the result of getVersions. -/
def checkPackVersion (regexTest : String → String → Bool)
    (opts : CheckOptions) (branchName : String)
    (git : GitFiles) (versions : Versions) : Evaluation :=
  if !(opts.allowPattern == ("")) && regexTest opts.allowPattern branchName then
    ⟨false, "Branch is allowed to modify versions"⟩
  else
    let isModified := git.modified_files.contains opts.filePath
    let isCreated := git.created_files.contains opts.filePath
    let isDeleted := git.deleted_files.contains opts.filePath
    if !isModified && !isCreated && !isDeleted then
      ⟨false, "PR hasn\x27t modified the version file"⟩
    else
      evaluateBlockingConditions versions isCreated isDeleted

/-- Faithful model of the JavaScript regex test for the default allow pattern
of the source: new RegExp("^(update|generate|auto)-.*").test(branch) holds
exactly when the branch name starts with update-, generate- or auto-. -/
def defaultAllowTest (pattern branch : String) : Bool :=
  pattern == ("^(update|generate|auto)-.*") &&
    (strStartsWith branch ("update-") || strStartsWith branch ("generate-") ||
      strStartsWith branch ("auto-"))

/-! ## Pin-file readers -/

/-- Model of the JavaScript String.split with separator newline, on the
character list of the content.  As in JavaScript, the empty string splits to
one empty segment and a trailing newline yields a trailing empty segment. -/
def splitLinesList : List Char → List (List Char)
  | [] => [[]]
  | c :: cs =>
    if c = ('\n') then [] :: splitLinesList cs
    else
      match splitLinesList cs with
      | l :: ls => (c :: l) :: ls
      | [] => [[c]]

/-- The lines of a file content, as JavaScript content.split with newline. -/
def splitLines (s : String) : List String :=
  (splitLinesList s.toList).map (fun l => String.mk l)

/-- Model of the JavaScript String.prototype.trim: drop whitespace from both
ends of the string. -/
def jsTrim (s : String) : String :=
  String.mk (((s.toList.dropWhile Char.isWhitespace).reverse.dropWhile
    Char.isWhitespace).reverse)

/-- The Version Reader used by the Decision Engine (getVersions in
danger/pack-version-check.ts): the first line of the file, trimmed.  This is
content.split(newline)[0].trim() for the working tree, and
git show ref:path piped through head -n 1, then trimmed, for committed
reference points. -/
def firstLineRead (content : String) : String :=
  jsTrim ((splitLines content).headD (""))

/-- A lowercase-hex digit as in the character class [a-f0-9]. -/
def isShaChar (c : Char) : Bool :=
  (('a') ≤ c && c ≤ ('f')) || (('0') ≤ c && c ≤ ('9'))

/-- A line consisting of exactly forty characters of [a-f0-9]. -/
def isSha40 (s : String) : Bool :=
  s.toList.length == 40 && s.toList.all isShaChar

/-- The pipeline reader of the previous identifier (pack-dependency/index.js):
content.match of the anchored multiline pattern of forty hex characters, so
the first line that is exactly a full-length identifier; none if no line
matches. -/
def extractLastSha (content : String) : Option String :=
  (splitLines content).find? isSha40

/-- The pin-file content written by the pipeline (pack-dependency/index.js):
a comment line naming the package, then the full identifier, then a final
newline. -/
def pinFileContent (name : String) (fullSha : String) : String :=
  ("# SHA of the last packed version of ") ++ name ++ ("\n") ++ fullSha ++ ("\n")

/-! ## Build-and-Pack Pipeline -/

/-- The dependency entries of package.json, as an association list from
package name to its version specifier. -/
structure Manifest where
  dependencies : List (String × String)
  deriving DecidableEq

/-- packageJson.dependencies[name] = value: replace the entry if present,
else add it. -/
def setDependency (m : Manifest) (name value : String) : Manifest :=
  if m.dependencies.any (fun kv => kv.1 == name) then
    ⟨m.dependencies.map (fun kv => if kv.1 == name then (kv.1, value) else kv)⟩
  else
    ⟨m.dependencies ++ [(name, value)]⟩

/-- The observable downstream state the pipeline mutates: the pin file
content (none when absent), the parsed package.json (none when absent or
unparseable), and the file names in the pack destination directory. -/
structure PipelineState where
  pinFile : Option String
  manifest : Option Manifest
  destFiles : List String
  deriving DecidableEq

/-- The inputs of the pack-dependency action (pack-dependency/index.js).
An empty string models an unset optional input, as core.getInput returns. -/
structure PackConfig where
  packageName : String := ""
  packDestination : String := "./packs"
  packageCommand : String := ""
  packCommand : String := ""
  filePath : String := ".ui-sha"
  deriving DecidableEq

/-- The behaviour of the external world during one pipeline run: whether each
external command succeeds, the identifier the checkout lands on, and the
files the packaging step deposits into the destination directory. -/
structure PackEnv where
  cloneOk : Bool
  checkoutOk : Bool
  fullSha : String
  shortSha : String
  installOk : Bool
  packageCmdOk : Bool
  packOk : Bool
  depositedFiles : List String
  deriving DecidableEq

/-- Longest digit run at the head of a character list, with the remainder. -/
def takeDigits : List Char → List Char × List Char
  | [] => ([], [])
  | c :: cs =>
    if c.isDigit then
      let (d, r) := takeDigits cs
      (c :: d, r)
    else ([], c :: cs)

/-- Match of the version capture group against the reversed characters of the
file name with the .tgz suffix removed: digits, dot, digits, dot, digits,
scanning from the end of the name as the anchored pattern does. -/
def parseVersionRev (rev : List Char) : Option (List Char) :=
  let (d1, r1) := takeDigits rev
  if d1 = [] then none
  else
    match r1 with
    | ('.') :: r2 =>
      let (d2, r3) := takeDigits r2
      if d2 = [] then none
      else
        match r3 with
        | ('.') :: r4 =>
          let (d3, _) := takeDigits r4
          if d3 = [] then none
          else some (d3.reverse ++ ('.') :: d2.reverse ++ ('.') :: d1.reverse)
        | _ => none
    | _ => none

/-- Embedding of the version extraction of pack-dependency/index.js:
packedFile.match of the pattern capturing three dot-separated digit runs
before the .tgz suffix; 0.0.0 when the name does not match. -/
def extractVersion (packedFile : String) : String :=
  if strEndsWith packedFile (".tgz") then
    match parseVersionRev ((packedFile.toList.dropLast.dropLast.dropLast.dropLast).reverse) with
    | some v => String.mk v
    | none => ("0.0.0")
  else ("0.0.0")

/-- Embedding of the package-name cleanup of pack-dependency/index.js:
replace every at-sign and slash with a dash, then drop one leading dash. -/
def cleanPackageName (name : String) : String :=
  let replaced := String.mk (name.toList.map
    (fun c => if c = ('@') || c = ('/') then ('-') else c))
  if strStartsWith replaced ("-") then String.mk (replaced.toList.drop 1) else replaced

/-- Model of path.join for the final package path (normalization of a
leading dot segment is elided; the claims do not depend on it). -/
def joinPath (dir file : String) : String := dir ++ ("/") ++ file

/-- fs.rename inside the destination directory: the old name disappears and
the new name appears. -/
def renameIn (files : List String) (oldName newName : String) : List String :=
  files.erase oldName ++ [newName]

/-- Insertion into a sorted list by the default JavaScript string order. -/
def insertSorted (s : String) : List String → List String
  | [] => [s]
  | t :: ts => if strLe s t then s :: t :: ts else t :: insertSorted s ts

/-- Model of the default JavaScript Array.prototype.sort on strings:
lexicographic order. -/
def jsSortStrings : List String → List String
  | [] => []
  | s :: ss => insertSorted s (jsSortStrings ss)

/-- The artifact selection of pack-dependency/index.js: filter the .tgz
files, sort them, and take the last one, so the lexicographically greatest
candidate; none when there is no candidate. -/
def selectPacked (files : List String) : Option String :=
  (jsSortStrings (files.filter (fun f => strEndsWith f (".tgz")))).getLast?

/-- Embedding of run from pack-dependency/index.js as a function of the
configuration, the external environment and the initial downstream state.
It returns the outcome (the package-file output on success, the error message
on failure) together with the final downstream state; the catch block of the
source only reports the error, so all state changes made before the failing
step persist.  The changelog step never aborts the run (its failure is
caught and turned into a warning) and does not touch the downstream state,
so it does not appear. -/
def run (cfg : PackConfig) (env : PackEnv) (s0 : PipelineState) :
    Except String String × PipelineState :=
  if !env.cloneOk then (.error ("git clone failed"), s0)
  else if !env.checkoutOk then (.error ("git checkout failed"), s0)
  else if !env.installOk then (.error ("pnpm install failed"), s0)
  else if !(cfg.packageCommand == ("")) && !env.packageCmdOk then
    (.error ("package command failed"), s0)
  else if !env.packOk then (.error ("pack command failed"), s0)
  else
    let s1 : PipelineState := { s0 with destFiles := s0.destFiles ++ env.depositedFiles }
    match selectPacked s1.destFiles with
    | none => (.error ("No packed file found"), s1)
    | some packedFile =>
      if !(cfg.packageName == ("")) then
        let version := extractVersion packedFile
        let cleanName := cleanPackageName cfg.packageName
        let newName := cleanName ++ ("-") ++ version ++ ("-") ++ env.shortSha ++ (".tgz")
        let s2 : PipelineState := { s1 with destFiles := renameIn s1.destFiles packedFile newName }
        let finalPackage := joinPath cfg.packDestination newName
        let s3 : PipelineState := { s2 with pinFile := some (pinFileContent cfg.packageName env.fullSha) }
        match s3.manifest with
        | none => (.error ("failed to read package.json"), s3)
        | some m =>
          let m2 := setDependency m cfg.packageName (("file:") ++ finalPackage)
          (.ok finalPackage, { s3 with manifest := some m2 })
      else
        let finalPackage := joinPath cfg.packDestination packedFile
        (.ok finalPackage, { s1 with pinFile := some (pinFileContent ("package") env.fullSha) })

/-! ## SHA Resolution and Rollback Guard (modelled from the spec) -/

/-- Modelled from the spec: the validate-sha action that implements the SHA
Resolution and Rollback Guard is not among the repository sources (only its
README and its callers are), so the upstream commit graph it queries is
modelled abstractly: resolution of a ref name to a full identifier, the tip
of the default branch, and the ancestry relation (reflexivity is handled
separately by the resolver, following the spec edge case that a target equal
to the previous identifier is never a rollback). -/
structure UpstreamGraph where
  resolveRef : String → Option String
  defaultTip : String
  isAncestor : String → String → Bool

/-- Modelled from the spec: an empty requested target means the latest tip of
the upstream default branch, otherwise the target is resolved against the
upstream commit graph; an unresolvable target is a resolution failure. -/
def resolveTarget (g : UpstreamGraph) (requestedTarget : String) : Option String :=
  if requestedTarget == ("") then some g.defaultTip else g.resolveRef requestedTarget

/-- Modelled from the spec: the error taxonomy of the Guard, with
RollbackRejected distinct from a plain resolution failure. -/
inductive ResolveError where
  | RollbackRejected : ResolveError
  | ResolutionFailed : ResolveError
  deriving DecidableEq

/-- Modelled from the spec: the record returned by a successful resolve call,
with the short identifier as the eight-character display form documented for
the validate-sha outputs. -/
structure ResolveOutput where
  resolvedIdentifier : String
  shortIdentifier : String
  previousIdentifier : Option String
  isRollback : Bool
  deriving DecidableEq

/-- Modelled from the spec: the rollback test.  It is a rollback exactly when
a previous identifier is known and is neither equal to nor an ancestor of the
resolved identifier in the upstream graph. -/
def computeIsRollback (g : UpstreamGraph) (previous : Option String)
    (resolved : String) : Bool :=
  match previous with
  | none => false
  | some p => !(p == resolved || g.isAncestor p resolved)

/-- Modelled from the spec: resolve of the SHA Resolution and Rollback Guard.
The requested target is resolved to a full identifier (failing with
ResolutionFailed when impossible); when the result would be a rollback and
allowRollback is false the call fails with RollbackRejected, otherwise it
succeeds and surfaces the rollback flag. -/
def resolve (g : UpstreamGraph) (requestedTarget : String)
    (previous : Option String) (allowRollback : Bool) :
    Except ResolveError ResolveOutput :=
  match resolveTarget g requestedTarget with
  | none => .error ResolveError.ResolutionFailed
  | some resolved =>
    let rb := computeIsRollback g previous resolved
    if rb && !allowRollback then .error ResolveError.RollbackRejected
    else .ok ⟨resolved, String.mk (resolved.toList.take 8), previous, rb⟩

/-! ## Helper lemmas -/

theorem notAllowed_bool {rt : String → String → Bool} {p b : String}
    (h : ¬(p ≠ "" ∧ rt p b = true)) : (!(p == ("")) && rt p b) = false := by
  cases hr : rt p b
  · simp
  · cases hp : p == ("")
    · exact absurd ⟨by simpa using (beq_eq_false_iff_ne (a := p) (b := "")).mp hp, hr⟩ h
    · simp [hp]

theorem falsy_true_iff {v : Option String} :
    falsy v = true ↔ v = none ∨ v = some ("") := by
  cases v with
  | none => simp [falsy]
  | some s => simp [falsy]

theorem and_false_of_not_and {a b : Bool} (h : ¬(a = true ∧ b = true)) :
    (a && b) = false := by
  cases a <;> cases b <;> simp_all

/-! ## Claim C5: allow-listed branches short-circuit -/

/-- C5: for every input whose change-branch name matches the configured
(non-empty) allow pattern, checkPackVersion short-circuits before any of the
three-way comparison logic and returns not-blocked with the allowed-branch
reason, regardless of the tracked file content at trunk, proposed or
merge-base and regardless of the file lists. -/
theorem C5_allowed_branch (regexTest : String → String → Bool)
    (opts : CheckOptions) (branchName : String)
    (git : GitFiles) (versions : Versions)
    (hpat : opts.allowPattern ≠ "")
    (hmatch : regexTest opts.allowPattern branchName = true) :
    checkPackVersion regexTest opts branchName git versions
      = ⟨false, "Branch is allowed to modify versions"⟩ := by
  have h1 : (opts.allowPattern == ("")) = false :=
    (beq_eq_false_iff_ne (a := opts.allowPattern) (b := "")).mpr hpat
  simp [checkPackVersion, h1, hmatch]

/-- Witness for C5 at a concrete input: the default configuration, a branch
named update-ui-pack, a modified tracked file and divergent values. -/
theorem C5_witness :
    checkPackVersion defaultAllowTest ⟨".ui-sha", "^(update|generate|auto)-.*"⟩
      ("update-ui-pack") ⟨[".ui-sha"], [], []⟩
      ⟨some ("aaa"), some ("bbb"), some ("ccc")⟩
      = ⟨false, "Branch is allowed to modify versions"⟩ :=
  C5_allowed_branch defaultAllowTest ⟨".ui-sha", "^(update|generate|auto)-.*"⟩
    ("update-ui-pack") ⟨[".ui-sha"], [], []⟩
    ⟨some ("aaa"), some ("bbb"), some ("ccc")⟩ (by decide) (by decide)

/-! ## Claim C2: untouched file -/

/-- C2 counterexample: a branch matching the allow pattern that did not touch
the tracked file receives the allowed-branch reason, not the untouched
reason, because the allow-list check runs before the touched check; so the
claim as stated (every untouched input yields the untouched reason) is false
at this input. -/
theorem C2_counterexample :
    (checkPackVersion defaultAllowTest ⟨".ui-sha", "^(update|generate|auto)-.*"⟩
        ("update-deps") ⟨[], [], []⟩
        ⟨some ("aaa"), some ("bbb"), some ("ccc")⟩).reason
      ≠ "PR hasn\x27t modified the version file" := by decide

/-- C2 amended: for every input where the branch is not allow-listed and the
change branch did not touch the tracked file (the path is in none of the
modified, created or deleted lists), checkPackVersion returns not-blocked
with the untouched reason, whatever the three observed values are. -/
theorem C2_untouched_rule (regexTest : String → String → Bool)
    (opts : CheckOptions) (branchName : String)
    (git : GitFiles) (versions : Versions)
    (hallow : ¬(opts.allowPattern ≠ "" ∧ regexTest opts.allowPattern branchName = true))
    (hm : opts.filePath ∉ git.modified_files)
    (hc : opts.filePath ∉ git.created_files)
    (hd : opts.filePath ∉ git.deleted_files) :
    checkPackVersion regexTest opts branchName git versions
      = ⟨false, "PR hasn\x27t modified the version file"⟩ := by
  simp [checkPackVersion, notAllowed_bool hallow, hm, hc, hd]

/-- Witness for C2 amended: a non-allow-listed branch with no touched files
and differing trunk and proposed values. -/
theorem C2_witness :
    checkPackVersion defaultAllowTest ⟨".ui-sha", "^(update|generate|auto)-.*"⟩
      ("feature-x") ⟨["src/app.ts"], [], []⟩
      ⟨some ("aaa"), some ("bbb"), some ("aaa")⟩
      = ⟨false, "PR hasn\x27t modified the version file"⟩ :=
  C2_untouched_rule defaultAllowTest ⟨".ui-sha", "^(update|generate|auto)-.*"⟩
    ("feature-x") ⟨["src/app.ts"], [], []⟩
    ⟨some ("aaa"), some ("bbb"), some ("aaa")⟩
    (by decide) (by decide) (by decide) (by decide)

/-! ## Claim C1: branch-only edit -/

/-- C1 counterexample: merge-base equals trunk because both are absent, trunk
differs from proposed, the file is modified on a non-allow-listed branch, it
is neither created nor deleted, and the values are not both absent — yet the
verdict carries the no-common-ancestor reason, not the branch-only-edit
reason, because the falsy-base check of the source runs before the
base-equals-main check; so the claim as stated is false at this input. -/
theorem C1_counterexample :
    checkPackVersion defaultAllowTest ⟨".ui-sha", "^(update|generate|auto)-.*"⟩
      ("feature-x") ⟨[".ui-sha"], [], []⟩ ⟨none, some ("abc123"), none⟩
      ≠ ⟨true, "PR modified version while main hasn\x27t changed (invalid version or test)"⟩ := by
  decide

/-- C1 amended: as the claim, plus the condition the counterexample forces:
the merge-base value must also be truthy (present and non-empty).  Under the
conditions — branch not allow-listed, file touched (modified or created),
merge-base equal to trunk, trunk different from proposed, values not both
absent, not the new-file case, file not deleted, merge-base truthy —
checkPackVersion blocks with the branch-only-edit reason. -/
theorem C1_branch_only_edit (regexTest : String → String → Bool)
    (opts : CheckOptions) (branchName : String)
    (git : GitFiles) (versions : Versions)
    (hallow : ¬(opts.allowPattern ≠ "" ∧ regexTest opts.allowPattern branchName = true))
    (htouched : opts.filePath ∈ git.modified_files ∨ opts.filePath ∈ git.created_files)
    (hBT : versions.base = versions.main)
    (hTP : versions.main ≠ versions.pr)
    (_hnb : ¬(versions.main = none ∧ versions.pr = none))
    (_hnf : ¬(falsy versions.main = true ∧ falsy versions.pr = false ∧
      opts.filePath ∈ git.created_files))
    (hdel : opts.filePath ∉ git.deleted_files)
    (hbase : falsy versions.base = false) :
    checkPackVersion regexTest opts branchName git versions
      = ⟨true, "PR modified version while main hasn\x27t changed (invalid version or test)"⟩ := by
  have hmp : (versions.main == versions.pr) = false :=
    (beq_eq_false_iff_ne (a := versions.main) (b := versions.pr)).mpr hTP
  have hmain : falsy versions.main = false := hBT ▸ hbase
  have hBM : (versions.base == versions.main) = true :=
    (beq_iff_eq (a := versions.base) (b := versions.main)).mpr hBT
  rcases htouched with ht | ht <;>
    simp [checkPackVersion, notAllowed_bool hallow, ht, hdel,
      evaluateBlockingConditions, hmp, hmain, hbase, hBM]

/-- Witness for C1 amended at the scenario of the spec: trunk and merge-base
abc123, proposed test-999, file modified on a plain feature branch. -/
theorem C1_witness :
    checkPackVersion defaultAllowTest ⟨".ui-sha", "^(update|generate|auto)-.*"⟩
      ("feature-x") ⟨[".ui-sha"], [], []⟩
      ⟨some ("abc123"), some ("test-999"), some ("abc123")⟩
      = ⟨true, "PR modified version while main hasn\x27t changed (invalid version or test)"⟩ :=
  C1_branch_only_edit defaultAllowTest ⟨".ui-sha", "^(update|generate|auto)-.*"⟩
    ("feature-x") ⟨[".ui-sha"], [], []⟩
    ⟨some ("abc123"), some ("test-999"), some ("abc123")⟩
    (by decide) (Or.inl (by decide)) rfl (by decide) (by decide) (by decide)
    (by decide) (by decide)

/-! ## Claim C4: file deleted on branch -/

/-- C4 counterexample: the tracked file is deleted on a non-allow-listed
branch while the file is also missing on trunk (trunk reads as the empty
string through the shell pipeline, proposed reads as null from the missing
working-tree file): both values are falsy, so the both-missing check of the
source fires before the deleted check and the verdict is not blocked; the
claim as stated (every deletion is blocked with the deleted reason) is
false at this input. -/
theorem C4_counterexample :
    checkPackVersion defaultAllowTest ⟨".ui-sha", "^(update|generate|auto)-.*"⟩
      ("feature-x") ⟨[], [], [".ui-sha"]⟩ ⟨some (""), none, some ("abc123")⟩
      ≠ ⟨true, "Version file was deleted"⟩ := by decide

/-- C4 amended: as the claim, restricted by the rules that the source checks
first: if the tracked file is deleted on a non-allow-listed branch, the trunk
and proposed values differ, they are not both falsy, and the new-file rule
does not apply, then checkPackVersion blocks with the deleted reason. -/
theorem C4_deleted_blocks (regexTest : String → String → Bool)
    (opts : CheckOptions) (branchName : String)
    (git : GitFiles) (versions : Versions)
    (hallow : ¬(opts.allowPattern ≠ "" ∧ regexTest opts.allowPattern branchName = true))
    (hdel : opts.filePath ∈ git.deleted_files)
    (hTP : versions.main ≠ versions.pr)
    (hnb : ¬(falsy versions.main = true ∧ falsy versions.pr = true))
    (hnf : ¬(falsy versions.main = true ∧ falsy versions.pr = false ∧
      opts.filePath ∈ git.created_files)) :
    checkPackVersion regexTest opts branchName git versions
      = ⟨true, "Version file was deleted"⟩ := by
  have hmp : (versions.main == versions.pr) = false :=
    (beq_eq_false_iff_ne (a := versions.main) (b := versions.pr)).mpr hTP
  have hff : (falsy versions.main && falsy versions.pr) = false :=
    and_false_of_not_and hnb
  by_cases hcr : opts.filePath ∈ git.created_files
  · have hnf2 : (falsy versions.main && !falsy versions.pr) = false := by
      cases h1 : falsy versions.main <;> cases h2 : falsy versions.pr <;>
        simp_all
    simp [checkPackVersion, notAllowed_bool hallow, hdel, hcr,
      evaluateBlockingConditions, hmp, hff, hnf2]
  · simp [checkPackVersion, notAllowed_bool hallow, hdel, hcr,
      evaluateBlockingConditions, hmp, hff]

/-- Witness for C4 amended: the file exists on trunk with value abc123, is
deleted in the working tree (proposed reads as null) on a plain feature
branch. -/
theorem C4_witness :
    checkPackVersion defaultAllowTest ⟨".ui-sha", "^(update|generate|auto)-.*"⟩
      ("feature-x") ⟨[], [], [".ui-sha"]⟩ ⟨some ("abc123"), none, some ("abc123")⟩
      = ⟨true, "Version file was deleted"⟩ :=
  C4_deleted_blocks defaultAllowTest ⟨".ui-sha", "^(update|generate|auto)-.*"⟩
    ("feature-x") ⟨[], [], [".ui-sha"]⟩ ⟨some ("abc123"), none, some ("abc123")⟩
    (by decide) (by decide) (by decide) (by decide) (by decide)

/-! ## Claim C9: both values absent, and the both-missing reason -/

/-- C9: when trunk and proposed both read as null, evaluateBlockingConditions
returns not-blocked with the match reason (null equals null), for every
merge-base value and every created/deleted flag; and the dedicated
both-missing reason is returned only when the two values are distinct falsy
values — null on one side and the empty string on the other. -/
theorem C9_both_missing_reasons :
    (∀ (base : Option String) (c d : Bool),
        evaluateBlockingConditions ⟨none, none, base⟩ c d
          = ⟨false, "Versions match"⟩)
    ∧ (∀ (v : Versions) (c d : Bool),
        (evaluateBlockingConditions v c d).reason
            = "Version file doesn\x27t exist in either branch" →
          (v.main = none ∧ v.pr = some ("")) ∨
            (v.main = some ("") ∧ v.pr = none)) := by
  constructor
  · intro base c d
    simp [evaluateBlockingConditions]
  · intro v c d h
    unfold evaluateBlockingConditions at h
    split at h
    · exact absurd h (by decide)
    · split at h
      · rename_i hmp hff
        have hne : v.main ≠ v.pr := by
          simpa using hmp
        obtain ⟨h1, h2⟩ := (Bool.and_eq_true _ _).mp hff
        rcases falsy_true_iff.mp h1 with hm | hm <;>
          rcases falsy_true_iff.mp h2 with hp | hp <;>
            simp_all
      · split at h
        · exact absurd h (by decide)
        · split at h
          · exact absurd h (by decide)
          · split at h
            · exact absurd h (by decide)
            · split at h
              · exact absurd h (by decide)
              · exact absurd h (by decide)

/-- Witness for C9: trunk and proposed both null with a present merge-base
value give the match reason, and the input with trunk null and proposed the
empty string realizes the both-missing reason. -/
theorem C9_witness :
    evaluateBlockingConditions ⟨none, none, some ("abc123")⟩ false false
        = ⟨false, "Versions match"⟩
    ∧ (((⟨none, some (""), none⟩ : Versions).main = none ∧
          (⟨none, some (""), none⟩ : Versions).pr = some ("")) ∨
        ((⟨none, some (""), none⟩ : Versions).main = some ("") ∧
          (⟨none, some (""), none⟩ : Versions).pr = none)) :=
  ⟨C9_both_missing_reasons.1 (some ("abc123")) false false,
    C9_both_missing_reasons.2 ⟨none, some (""), none⟩ false false (by decide)⟩

/-! ## Claim C8: rollback guard (modelled from the spec) -/

/-- C8: for every resolve call where the previous identifier is known and the
resolved identifier is a rollback target (the previous identifier is neither
equal to nor an ancestor of it), the call with allowRollback false fails with
the distinct RollbackRejected error and returns no resolution, and the call
with allowRollback true succeeds and returns isRollback true. -/
theorem C8_rollback_guard (g : UpstreamGraph) (t p resolved : String)
    (hres : resolveTarget g t = some resolved)
    (hrb : computeIsRollback g (some p) resolved = true) :
    resolve g t (some p) false = .error ResolveError.RollbackRejected
    ∧ resolve g t (some p) true
        = .ok ⟨resolved, String.mk (resolved.toList.take 8), some p, true⟩ := by
  constructor <;> simp [resolve, hres, hrb]

/-- Witness for C8 at the scenario of the spec: the previous identifier bbb
is not an ancestor of the resolved target aaa. -/
theorem C8_witness :
    resolve ⟨fun r => if r == ("old-tag") then some ("aaa") else none, "tip",
        fun _ _ => false⟩ ("old-tag") (some ("bbb")) false
      = .error ResolveError.RollbackRejected
    ∧ resolve ⟨fun r => if r == ("old-tag") then some ("aaa") else none, "tip",
        fun _ _ => false⟩ ("old-tag") (some ("bbb")) true
      = .ok ⟨"aaa", String.mk (("aaa").toList.take 8), some ("bbb"), true⟩ :=
  C8_rollback_guard
    ⟨fun r => if r == ("old-tag") then some ("aaa") else none, "tip",
      fun _ _ => false⟩ ("old-tag") ("bbb") ("aaa") rfl rfl

/-! ## Claim C3: pipeline failure semantics -/

/-- C3 counterexample: a run where every external step succeeds but the
manifest is unreadable (package.json absent or unparseable) fails — yet the
pin file has already been rewritten, because the source writes the pin file
before reading package.json; so the claim as stated (a failing run changes
neither the pin file nor the manifest) is false at this input. -/
theorem C3_counterexample :
    (run ⟨"@temporalio/ui", "./packs", "", "", ".ui-sha"⟩
        ⟨true, true, "aaaaaaaaaaaaaaaaaaaaaaaaaaaaaaaaaaaaaaaa", "aaaaaaaa",
          true, true, true, ["ui-1.0.0.tgz"]⟩
        ⟨none, none, []⟩).1 = Except.error ("failed to read package.json")
    ∧ (run ⟨"@temporalio/ui", "./packs", "", "", ".ui-sha"⟩
        ⟨true, true, "aaaaaaaaaaaaaaaaaaaaaaaaaaaaaaaaaaaaaaaa", "aaaaaaaa",
          true, true, true, ["ui-1.0.0.tgz"]⟩
        ⟨none, none, []⟩).2.pinFile
      ≠ (⟨none, none, []⟩ : PipelineState).pinFile :=
  ⟨rfl, by decide⟩

/-- C3 amended: a failing run never changes the manifest, and changes the
pin file only in the single case the counterexample forces: when the failing
step is the manifest read, which the source reaches only after rewriting the
pin file; every failure of an earlier step leaves the pin file unchanged as
the claim states. -/
theorem C3_failure_semantics (cfg : PackConfig) (env : PackEnv)
    (s0 s1 : PipelineState) (e : String)
    (hrun : run cfg env s0 = (Except.error e, s1)) :
    s1.manifest = s0.manifest
    ∧ (e ≠ "failed to read package.json" → s1.pinFile = s0.pinFile)
    ∧ (e = "failed to read package.json" →
        s1.pinFile = some (pinFileContent cfg.packageName env.fullSha)) := by
  simp only [run] at hrun
  split at hrun
  · simp only [Prod.mk.injEq, Except.error.injEq] at hrun
    obtain ⟨he, hs⟩ := hrun
    subst he
    subst hs
    exact ⟨rfl, fun _ => rfl, fun hc => absurd hc (by decide)⟩
  · split at hrun
    · simp only [Prod.mk.injEq, Except.error.injEq] at hrun
      obtain ⟨he, hs⟩ := hrun
      subst he
      subst hs
      exact ⟨rfl, fun _ => rfl, fun hc => absurd hc (by decide)⟩
    · split at hrun
      · simp only [Prod.mk.injEq, Except.error.injEq] at hrun
        obtain ⟨he, hs⟩ := hrun
        subst he
        subst hs
        exact ⟨rfl, fun _ => rfl, fun hc => absurd hc (by decide)⟩
      · split at hrun
        · simp only [Prod.mk.injEq, Except.error.injEq] at hrun
          obtain ⟨he, hs⟩ := hrun
          subst he
          subst hs
          exact ⟨rfl, fun _ => rfl, fun hc => absurd hc (by decide)⟩
        · split at hrun
          · simp only [Prod.mk.injEq, Except.error.injEq] at hrun
            obtain ⟨he, hs⟩ := hrun
            subst he
            subst hs
            exact ⟨rfl, fun _ => rfl, fun hc => absurd hc (by decide)⟩
          · split at hrun
            · simp only [Prod.mk.injEq, Except.error.injEq] at hrun
              obtain ⟨he, hs⟩ := hrun
              subst he
              subst hs
              exact ⟨by simp, fun _ => by simp, fun hc => absurd hc (by decide)⟩
            · split at hrun
              · split at hrun
                · simp only [Prod.mk.injEq, Except.error.injEq] at hrun
                  obtain ⟨he, hs⟩ := hrun
                  subst he
                  subst hs
                  refine ⟨by simp, fun hc => absurd rfl hc, fun _ => by simp⟩
                · simp at hrun
              · simp at hrun

/-- Witness for C3 amended at a concrete failing run: the clone step fails,
the manifest and the pin file are unchanged. -/
theorem C3_witness :
    (⟨none, some (⟨[]⟩ : Manifest), []⟩ : PipelineState).manifest
        = (⟨none, some (⟨[]⟩ : Manifest), []⟩ : PipelineState).manifest
    ∧ (⟨none, some (⟨[]⟩ : Manifest), []⟩ : PipelineState).pinFile
        = (⟨none, some (⟨[]⟩ : Manifest), []⟩ : PipelineState).pinFile :=
  ⟨(C3_failure_semantics ⟨"@temporalio/ui", "./packs", "", "", ".ui-sha"⟩
      ⟨false, true, "bbb", "bb", true, true, true, []⟩
      ⟨none, some (⟨[]⟩ : Manifest), []⟩ ⟨none, some (⟨[]⟩ : Manifest), []⟩
      ("git clone failed") rfl).1,
    (C3_failure_semantics ⟨"@temporalio/ui", "./packs", "", "", ".ui-sha"⟩
      ⟨false, true, "bbb", "bb", true, true, true, []⟩
      ⟨none, some (⟨[]⟩ : Manifest), []⟩ ⟨none, some (⟨[]⟩ : Manifest), []⟩
      ("git clone failed") rfl).2.1 (by decide)⟩

/-! ## Claim C10: run without a package name -/

/-- C10: for every successful run with no package name supplied, the manifest
is untouched (package.json is neither read nor modified, so every dependency
entry is unchanged), the destination keeps exactly the deposited files under
their original names (no rename to the cleaned-name scheme), the package-file
output refers to the selected artifact by its original filename, and the pin
file is still rewritten (with the literal package placeholder in its comment
line). -/
theorem C10_no_rename_no_manifest (cfg : PackConfig) (env : PackEnv)
    (s0 s1 : PipelineState) (p : String)
    (hname : cfg.packageName = "")
    (hrun : run cfg env s0 = (Except.ok p, s1)) :
    s1.manifest = s0.manifest
    ∧ s1.pinFile = some (pinFileContent ("package") env.fullSha)
    ∧ s1.destFiles = s0.destFiles ++ env.depositedFiles
    ∧ (∀ pf, selectPacked (s0.destFiles ++ env.depositedFiles) = some pf →
        p = joinPath cfg.packDestination pf) := by
  simp only [run] at hrun
  split at hrun
  · simp at hrun
  · split at hrun
    · simp at hrun
    · split at hrun
      · simp at hrun
      · split at hrun
        · simp at hrun
        · split at hrun
          · simp at hrun
          · split at hrun
            · simp at hrun
            · rename_i packedFile hsel
              split at hrun
              · rename_i hpn
                rw [hname] at hpn
                simp at hpn
              · simp only [Prod.mk.injEq, Except.ok.injEq] at hrun
                obtain ⟨hp, hs⟩ := hrun
                subst hp
                subst hs
                refine ⟨by simp, by simp, by simp, ?_⟩
                intro pf hpf
                rw [hsel] at hpf
                injection hpf with hpf
                subst hpf
                rfl

/-- Witness for C10 at a concrete successful run without a package name: the
single deposited artifact keeps its name and the manifest entry list is
untouched. -/
theorem C10_witness :
    ((run ⟨"", "./packs", "", "", ".ui-sha"⟩
        ⟨true, true, "ccc", "cc", true, true, true, ["ui-1.0.0.tgz"]⟩
        ⟨none, some (⟨[("left", "alone")]⟩ : Manifest), []⟩).2.manifest
      = (⟨none, some (⟨[("left", "alone")]⟩ : Manifest), []⟩ : PipelineState).manifest)
    ∧ ((run ⟨"", "./packs", "", "", ".ui-sha"⟩
        ⟨true, true, "ccc", "cc", true, true, true, ["ui-1.0.0.tgz"]⟩
        ⟨none, some (⟨[("left", "alone")]⟩ : Manifest), []⟩).2.pinFile
      = some (pinFileContent ("package") ("ccc")))
    ∧ ((run ⟨"", "./packs", "", "", ".ui-sha"⟩
        ⟨true, true, "ccc", "cc", true, true, true, ["ui-1.0.0.tgz"]⟩
        ⟨none, some (⟨[("left", "alone")]⟩ : Manifest), []⟩).2.destFiles
      = ([] : List String) ++ ["ui-1.0.0.tgz"])
    ∧ ("./packs/ui-1.0.0.tgz") = joinPath ("./packs") ("ui-1.0.0.tgz") := by
  have h := C10_no_rename_no_manifest ⟨"", "./packs", "", "", ".ui-sha"⟩
    ⟨true, true, "ccc", "cc", true, true, true, ["ui-1.0.0.tgz"]⟩
    ⟨none, some (⟨[("left", "alone")]⟩ : Manifest), []⟩
    ((run ⟨"", "./packs", "", "", ".ui-sha"⟩
        ⟨true, true, "ccc", "cc", true, true, true, ["ui-1.0.0.tgz"]⟩
        ⟨none, some (⟨[("left", "alone")]⟩ : Manifest), []⟩).2)
    ("./packs/ui-1.0.0.tgz") rfl rfl
  exact ⟨h.1, h.2.1, h.2.2.1, h.2.2.2 ("ui-1.0.0.tgz") rfl⟩

/-! ## Order and sorting lemmas for the artifact selection -/

theorem charListLe_refl (a : List Char) : charListLe a a = true := by
  induction a with
  | nil => rfl
  | cons c cs ih => simp [charListLe, lt_irrefl, ih]

theorem charListLe_total (a b : List Char) :
    charListLe a b = true ∨ charListLe b a = true := by
  induction a generalizing b with
  | nil => exact Or.inl rfl
  | cons x xs ih =>
    cases b with
    | nil => exact Or.inr rfl
    | cons y ys =>
      rcases lt_trichotomy x y with h | h | h
      · exact Or.inl (by simp [charListLe, h])
      · subst h
        rcases ih ys with h2 | h2
        · exact Or.inl (by simp [charListLe, lt_irrefl, h2])
        · exact Or.inr (by simp [charListLe, lt_irrefl, h2])
      · exact Or.inr (by simp [charListLe, h])

theorem charListLe_trans {a b c : List Char} (h1 : charListLe a b = true)
    (h2 : charListLe b c = true) : charListLe a c = true := by
  induction a generalizing b c with
  | nil => rfl
  | cons x xs ih =>
    cases b with
    | nil => exact absurd h1 (by simp [charListLe])
    | cons y ys =>
      cases c with
      | nil => exact absurd h2 (by simp [charListLe])
      | cons z zs =>
        by_cases hxy : x < y
        · by_cases hyz : y < z
          · simp [charListLe, lt_trans hxy hyz]
          · by_cases hzy : z < y
            · exact absurd h2 (by simp [charListLe, hyz, hzy])
            · have hyzeq : y = z := le_antisymm (not_lt.mp hzy) (not_lt.mp hyz)
              subst hyzeq
              simp [charListLe, hxy]
        · by_cases hyx : y < x
          · exact absurd h1 (by simp [charListLe, hxy, hyx])
          · have hxyeq : x = y := le_antisymm (not_lt.mp hyx) (not_lt.mp hxy)
            subst hxyeq
            have h1x : charListLe xs ys = true := by
              simpa [charListLe, lt_irrefl] using h1
            by_cases hxz : x < z
            · simp [charListLe, hxz]
            · by_cases hzx : z < x
              · exact absurd h2 (by simp [charListLe, hxz, hzx])
              · have hxzeq : x = z := le_antisymm (not_lt.mp hzx) (not_lt.mp hxz)
                subst hxzeq
                have h2x : charListLe ys zs = true := by
                  simpa [charListLe, lt_irrefl] using h2
                simp [charListLe, lt_irrefl, ih h1x h2x]

theorem strLe_refl (a : String) : strLe a a = true := charListLe_refl a.toList

theorem strLe_total (a b : String) : strLe a b = true ∨ strLe b a = true :=
  charListLe_total a.toList b.toList

theorem strLe_trans {a b c : String} (h1 : strLe a b = true)
    (h2 : strLe b c = true) : strLe a c = true :=
  charListLe_trans h1 h2

theorem getLast?_cons_of_ne_nil {α : Type} (a : α) {l : List α} (h : l ≠ []) :
    (a :: l).getLast? = l.getLast? := by
  cases l with
  | nil => exact absurd rfl h
  | cons b bs => simp [List.getLast?]

theorem insertSorted_ne_nil (s : String) (l : List String) :
    insertSorted s l ≠ [] := by
  cases l with
  | nil => simp [insertSorted]
  | cons t ts =>
    by_cases h : strLe s t = true <;> simp [insertSorted, h]

theorem mem_insertSorted {a s : String} {l : List String} :
    a ∈ insertSorted s l ↔ a = s ∨ a ∈ l := by
  induction l with
  | nil => simp [insertSorted]
  | cons t ts ih =>
    by_cases h : strLe s t = true
    · simp [insertSorted, h]
    · simp [insertSorted, h, ih]
      tauto

theorem mem_jsSortStrings {a : String} {l : List String} :
    a ∈ jsSortStrings l ↔ a ∈ l := by
  induction l with
  | nil => simp [jsSortStrings]
  | cons s ss ih =>
    simp [jsSortStrings, mem_insertSorted, ih]

theorem getLast_insertSorted_of_le (s : String) (M : List String) (pm : String)
    (hM : M.getLast? = some pm) (hle : strLe s pm = true) :
    (insertSorted s M).getLast? = some pm := by
  induction M with
  | nil => exact absurd hM (by simp)
  | cons t ts ih =>
    by_cases h : strLe s t = true
    · rw [insertSorted, if_pos h]
      rw [getLast?_cons_of_ne_nil s (by simp)]
      exact hM
    · rw [insertSorted, if_neg h]
      cases ts with
      | nil =>
        have : pm = t := by simpa [List.getLast?] using hM.symm
        subst this
        exact absurd hle h
      | cons u us =>
        have hM2 : (u :: us).getLast? = some pm := by
          rw [← getLast?_cons_of_ne_nil t (by simp)]
          exact hM
        have := ih hM2
        rw [getLast?_cons_of_ne_nil t (insertSorted_ne_nil s (u :: us))]
        exact this

theorem insertSorted_eq_append (s : String) (M : List String)
    (hall : ∀ t ∈ M, strLe s t = false) : insertSorted s M = M ++ [s] := by
  induction M with
  | nil => rfl
  | cons t ts ih =>
    have ht : strLe s t = false := hall t (by simp)
    rw [insertSorted, if_neg (by simp [ht])]
    rw [ih (fun u hu => hall u (by simp [hu]))]
    rfl

theorem getLast?_append_singleton {α : Type} (l : List α) (a : α) :
    (l ++ [a]).getLast? = some a := by
  induction l with
  | nil => rfl
  | cons b bs ih =>
    rw [List.cons_append, getLast?_cons_of_ne_nil b (by simp)]
    exact ih

theorem jsSort_max (l : List String) (h : l ≠ []) :
    ∃ pf, (jsSortStrings l).getLast? = some pf ∧ pf ∈ l ∧
      ∀ q ∈ l, strLe q pf = true := by
  induction l with
  | nil => exact absurd rfl h
  | cons s ss ih =>
    cases ss with
    | nil =>
      refine ⟨s, by simp [jsSortStrings, insertSorted, List.getLast?], by simp, ?_⟩
      intro q hq
      have : q = s := by simpa using hq
      subst this
      exact strLe_refl q
    | cons u us =>
      obtain ⟨pm, hM, hmem, hmax⟩ := ih (by simp)
      by_cases hsp : strLe s pm = true
      · refine ⟨pm, ?_, by simp [hmem], ?_⟩
        · rw [jsSortStrings]
          exact getLast_insertSorted_of_le s (jsSortStrings (u :: us)) pm hM hsp
        · intro q hq
          rcases List.mem_cons.mp hq with hq | hq
          · subst hq
            exact hsp
          · exact hmax q hq
      · have hps : strLe pm s = true := (strLe_total s pm).resolve_left hsp
        have hall : ∀ t ∈ jsSortStrings (u :: us), strLe s t = false := by
          intro t htM
          have htss : t ∈ u :: us := mem_jsSortStrings.mp htM
          cases hst : strLe s t
          · rfl
          · exact absurd (strLe_trans hst (hmax t htss)) (by simp [hsp])
        refine ⟨s, ?_, by simp, ?_⟩
        · rw [jsSortStrings, insertSorted_eq_append s _ hall]
          exact getLast?_append_singleton _ s
        · intro q hq
          rcases List.mem_cons.mp hq with hq | hq
          · subst hq
            exact strLe_refl q
          · exact strLe_trans (hmax q hq) hps

theorem getLast?_eq_none_iff {α : Type} {l : List α} :
    l.getLast? = none ↔ l = [] := by
  cases l with
  | nil => simp
  | cons a as =>
    constructor
    · intro h
      rcases as with _ | ⟨b, bs⟩
      · exact absurd h (by simp [List.getLast?])
      · rw [getLast?_cons_of_ne_nil a (by simp)] at h
        exact absurd ((getLast?_eq_none_iff).mp h) (by simp)
    · intro h
      exact absurd h (by simp)

/-! ## Claim C7: artifact counting and selection -/

/-- C7 counterexample: the packaging step deposits two candidate artifacts
and no package name is supplied — yet the run does not fail: it selects the
lexicographically last candidate and succeeds, because the source never
treats multiple artifacts as an error; so the claim as stated (multiple
candidates are fatal unless a package name is supplied) is false at this
input. -/
theorem C7_counterexample :
    (run ⟨"", "./packs", "", "", ".ui-sha"⟩
        ⟨true, true, "ddd", "dd", true, true, true,
          ["a-1.0.0.tgz", "b-1.0.0.tgz"]⟩
        ⟨none, none, []⟩).1
      = Except.ok ("./packs/b-1.0.0.tgz") := rfl

theorem jsSortStrings_eq_nil_iff {l : List String} :
    jsSortStrings l = [] ↔ l = [] := by
  cases l with
  | nil => simp [jsSortStrings]
  | cons s ss =>
    simp [jsSortStrings, insertSorted_ne_nil]

/-- C7 amended: in a run whose steps before packaging all succeed, zero
candidate artifacts (no .tgz file in the destination) is a fatal error —
and the only way to reach that error; with at least one candidate the run
never fails over ambiguity: the selected artifact is always the
lexicographically last .tgz candidate, both when no package name is supplied
(the output references it under its original name) and when one is supplied
(the renamed output embeds its version), so the lexicographic-last tie-break
is not conditional on a package name being supplied. -/
theorem C7_artifact_selection (cfg : PackConfig) (env : PackEnv)
    (s0 : PipelineState)
    (hc : env.cloneOk = true) (hk : env.checkoutOk = true)
    (hi : env.installOk = true)
    (hp : (!(cfg.packageCommand == ("")) && !env.packageCmdOk) = false)
    (hpk : env.packOk = true) :
    ((s0.destFiles ++ env.depositedFiles).filter (fun f => strEndsWith f (".tgz")) = []
        ↔ (run cfg env s0).1 = Except.error ("No packed file found"))
    ∧ (∀ pf, selectPacked (s0.destFiles ++ env.depositedFiles) = some pf →
        pf ∈ (s0.destFiles ++ env.depositedFiles).filter (fun f => strEndsWith f (".tgz"))
        ∧ ∀ q ∈ (s0.destFiles ++ env.depositedFiles).filter (fun f => strEndsWith f (".tgz")),
            strLe q pf = true)
    ∧ (∀ pf, selectPacked (s0.destFiles ++ env.depositedFiles) = some pf →
        cfg.packageName = "" →
        (run cfg env s0).1 = Except.ok (joinPath cfg.packDestination pf))
    ∧ (∀ pf m, selectPacked (s0.destFiles ++ env.depositedFiles) = some pf →
        s0.manifest = some m → cfg.packageName ≠ "" →
        (run cfg env s0).1 = Except.ok (joinPath cfg.packDestination
          (cleanPackageName cfg.packageName ++ ("-") ++ extractVersion pf ++ ("-")
            ++ env.shortSha ++ (".tgz")))) := by
  refine ⟨⟨?_, ?_⟩, ?_, ?_, ?_⟩
  · intro hnil
    have hsel : selectPacked (s0.destFiles ++ env.depositedFiles) = none := by
      simp [selectPacked, hnil, jsSortStrings]
    simp [run, hc, hk, hi, hp, hpk, hsel]
  · intro herr
    by_contra hne
    obtain ⟨pf, hl, _, _⟩ := jsSort_max _ hne
    have hsel : selectPacked (s0.destFiles ++ env.depositedFiles) = some pf := hl
    by_cases hpn : cfg.packageName = ""
    · have : (cfg.packageName == ("")) = true := beq_iff_eq.mpr hpn
      simp [run, hc, hk, hi, hp, hpk, hsel, this] at herr
    · have hpn2 : (cfg.packageName == ("")) = false :=
        (beq_eq_false_iff_ne (a := cfg.packageName) (b := "")).mpr hpn
      cases hm : s0.manifest with
      | none =>
        simp [run, hc, hk, hi, hp, hpk, hsel, hpn2, hm] at herr
      | some m =>
        simp [run, hc, hk, hi, hp, hpk, hsel, hpn2, hm] at herr
  · intro pf hsel
    have hne : (s0.destFiles ++ env.depositedFiles).filter
        (fun f => strEndsWith f (".tgz")) ≠ [] := by
      intro hnil
      rw [selectPacked, hnil] at hsel
      simp [jsSortStrings] at hsel
    obtain ⟨pf2, hl2, hmem, hmax⟩ := jsSort_max _ hne
    have : pf2 = pf := by
      have h2 := hsel.symm.trans hl2
      injection h2 with hval
      exact hval.symm
    subst this
    exact ⟨hmem, hmax⟩
  · intro pf hsel hpn
    have : (cfg.packageName == ("")) = true := beq_iff_eq.mpr hpn
    simp [run, hc, hk, hi, hp, hpk, hsel, this]
  · intro pf m hsel hm hpn
    have hpn2 : (cfg.packageName == ("")) = false :=
      (beq_eq_false_iff_ne (a := cfg.packageName) (b := "")).mpr hpn
    simp [run, hc, hk, hi, hp, hpk, hsel, hpn2, hm]

/-- Witness for C7 amended at a concrete run: two deposited candidates, no
package name; the lexicographically last candidate is a maximal member of
the candidate list and the run succeeds with it. -/
theorem C7_witness :
    (("b-1.0.0.tgz") ∈ (([] : List String)
        ++ ["a-1.0.0.tgz", "b-1.0.0.tgz"]).filter (fun f => strEndsWith f (".tgz"))
      ∧ ∀ q ∈ (([] : List String)
          ++ ["a-1.0.0.tgz", "b-1.0.0.tgz"]).filter (fun f => strEndsWith f (".tgz")),
          strLe q ("b-1.0.0.tgz") = true)
    ∧ (run ⟨"", "./packs", "", "", ".ui-sha"⟩
        ⟨true, true, "eee", "ee", true, true, true,
          ["a-1.0.0.tgz", "b-1.0.0.tgz"]⟩
        ⟨none, none, []⟩).1
      = Except.ok (joinPath ("./packs") ("b-1.0.0.tgz")) := by
  have h := C7_artifact_selection ⟨"", "./packs", "", "", ".ui-sha"⟩
    ⟨true, true, "eee", "ee", true, true, true, ["a-1.0.0.tgz", "b-1.0.0.tgz"]⟩
    ⟨none, none, []⟩ rfl rfl rfl rfl rfl
  exact ⟨h.2.1 ("b-1.0.0.tgz") rfl, h.2.2.1 ("b-1.0.0.tgz") rfl rfl⟩

/-! ## Line-splitting lemmas for the pin-file readers -/

theorem splitLinesList_append (xs ys : List Char) (h : ('\n') ∉ xs) :
    splitLinesList (xs ++ ('\n') :: ys) = xs :: splitLinesList ys := by
  induction xs with
  | nil => simp [splitLinesList]
  | cons c cs ih =>
    have hc : c ≠ ('\n') := fun he => h (he ▸ List.mem_cons_self c cs)
    have hcs : ('\n') ∉ cs := fun he => h (List.mem_cons_of_mem c he)
    rw [List.cons_append, splitLinesList, if_neg hc, ih hcs]

theorem strmk_toList (s : String) : String.mk s.toList = s := rfl

theorem splitLines_append (a b : String) (ha : ('\n') ∉ a.toList) :
    splitLines (a ++ ("\n") ++ b) = a :: splitLines b := by
  have hn : ("\n").toList = [('\n')] := rfl
  have h1 : (a ++ ("\n") ++ b).toList = a.toList ++ ('\n') :: b.toList := by
    simp [String.toList, String.data_append]
  unfold splitLines
  rw [h1, splitLinesList_append _ _ ha]
  simp [strmk_toList]

theorem splitLines_append_end (a : String) (ha : ('\n') ∉ a.toList) :
    splitLines (a ++ ("\n")) = [a, ""] := by
  have h1 : (a ++ ("\n")).toList = a.toList ++ ('\n') :: [] := by
    simp [String.toList, String.data_append]
  unfold splitLines
  rw [h1, splitLinesList_append _ _ ha]
  simp [strmk_toList, splitLinesList]

theorem splitLines_pinFileContent (name sha : String)
    (hname : ('\n') ∉ name.toList) (hsha : ('\n') ∉ sha.toList) :
    splitLines (pinFileContent name sha)
      = [("# SHA of the last packed version of ") ++ name, sha, ""] := by
  have hpin : pinFileContent name sha
      = ((("# SHA of the last packed version of ") ++ name) ++ ("\n"))
        ++ (sha ++ ("\n")) := by
    apply String.ext
    simp [pinFileContent, String.data_append]
  have hcom : ('\n') ∉ (("# SHA of the last packed version of ") ++ name).toList := by
    intro hmem
    rw [show (("# SHA of the last packed version of ") ++ name).toList
        = ("# SHA of the last packed version of ").toList ++ name.toList by
      simp [String.toList, String.data_append]] at hmem
    rcases List.mem_append.mp hmem with h | h
    · exact absurd h (by decide)
    · exact hname h
  rw [hpin, show ((("# SHA of the last packed version of ") ++ name) ++ ("\n"))
      ++ (sha ++ ("\n"))
      = (("# SHA of the last packed version of ") ++ name) ++ ("\n")
        ++ (sha ++ ("\n")) from by
    apply String.ext
    simp [String.data_append]]
  rw [splitLines_append _ _ hcom, splitLines_append_end sha hsha]

/-! ## Claim C6: the two pin-file readers -/

/-- C6 counterexample: on the pin file the pipeline itself writes (comment
line first, identifier on the second line), the Decision Engine Version
Reader returns the comment line, not the canonical identifier, while the
pipeline reader does return the identifier; so the claim as stated (every
reader extracts the identifier, ignoring the commentary ahead of it) is
false at this input. -/
theorem C6_counterexample :
    firstLineRead (pinFileContent ("package")
        ("aaaaaaaaaaaaaaaaaaaaaaaaaaaaaaaaaaaaaaaa"))
      ≠ ("aaaaaaaaaaaaaaaaaaaaaaaaaaaaaaaaaaaaaaaa")
    ∧ firstLineRead (pinFileContent ("package")
        ("aaaaaaaaaaaaaaaaaaaaaaaaaaaaaaaaaaaaaaaa"))
      = ("# SHA of the last packed version of package")
    ∧ extractLastSha (pinFileContent ("package")
        ("aaaaaaaaaaaaaaaaaaaaaaaaaaaaaaaaaaaaaaaa"))
      = some ("aaaaaaaaaaaaaaaaaaaaaaaaaaaaaaaaaaaaaaaa") := by
  refine ⟨by decide, by decide, by decide⟩

/-- C6 amended: on every pin file of the shape the pipeline writes (a
newline-free comment line, then a full forty-character hex identifier line),
the pipeline reader of the previous identifier skips the leading comment and
extracts the identifier line, while the Version Reader used by the Decision
Engine extracts the first line of the file — the comment line, trimmed — and
not the identifier. -/
theorem C6_pin_readers (name sha : String)
    (hname : ('\n') ∉ name.toList) (hsha : isSha40 sha = true) :
    extractLastSha (pinFileContent name sha) = some sha
    ∧ firstLineRead (pinFileContent name sha)
        = jsTrim (("# SHA of the last packed version of ") ++ name) := by
  have hall : sha.toList.all isShaChar = true := ((Bool.and_eq_true _ _).mp hsha).2
  have hshaNl : ('\n') ∉ sha.toList := by
    intro hmem
    have := (List.all_eq_true.mp hall) _ hmem
    exact absurd this (by decide)
  have hsplit := splitLines_pinFileContent name sha hname hshaNl
  have hcomFalse : isSha40 (("# SHA of the last packed version of ") ++ name) = false := by
    have htl : (("# SHA of the last packed version of ") ++ name).toList
        = ("# SHA of the last packed version of ").toList ++ name.toList := by
      simp [String.toList, String.data_append]
    have hpre : ("# SHA of the last packed version of ").toList.all isShaChar
        = false := by decide
    have hcomAll : (("# SHA of the last packed version of ") ++ name).toList.all isShaChar
        = false := by
      rw [htl, List.all_append, hpre, Bool.false_and]
    simp only [isSha40]
    rw [hcomAll, Bool.and_false]
  constructor
  · rw [extractLastSha, hsplit]
    simp [List.find?, hcomFalse, hsha]
  · rw [firstLineRead, hsplit]
    rfl

/-- Witness for C6 amended: the package named package and an all-a
identifier. -/
theorem C6_witness :
    extractLastSha (pinFileContent ("package")
        ("aaaaaaaaaaaaaaaaaaaaaaaaaaaaaaaaaaaaaaaa"))
      = some ("aaaaaaaaaaaaaaaaaaaaaaaaaaaaaaaaaaaaaaaa")
    ∧ firstLineRead (pinFileContent ("package")
        ("aaaaaaaaaaaaaaaaaaaaaaaaaaaaaaaaaaaaaaaa"))
      = jsTrim (("# SHA of the last packed version of ") ++ ("package")) :=
  C6_pin_readers ("package") ("aaaaaaaaaaaaaaaaaaaaaaaaaaaaaaaaaaaaaaaa")
    (by decide) (by decide)
